import Mathlib

/-!
Verification of the solana-raydium-swap repository's core pipeline.

JS strings are modelled as `List Char`; BN (bn.js arbitrary-precision
integers) as `ℤ` (values produced by parsing a decimal string, negative
exactly when the string begins with '-'); on-chain account state as a
function from public keys to optional account infos; network-dependent
collaborators (RPC, Raydium SDK, wallet adapter) as oracle fields of an
environment record, with every network round-trip recorded in an explicit
effect trace.
-/

namespace RaydiumSwap

/-! ## Character and digit-string primitives (JS string operations) -/

/-- Numeric value of a digit character, as bn.js reads base-10 digits
(char code minus 48). -/
def charToDigit (c : Char) : Nat := c.toNat - 48

/-- Value of a big-endian digit string, as `new BN(string, 10)` computes it
for a sign-free string. -/
def digitsToNat (s : List Char) : Nat :=
  s.foldl (fun a c => 10 * a + charToDigit c) 0

/-- Model of `new BN(string)`: a leading '-' sets the negative flag, the remaining
characters give the magnitude. -/
def bnOfChars (s : List Char) : Int :=
  if s.head? = some '-' then -(digitsToNat s.tail : Int)
  else (digitsToNat s : Int)

/-- The decimal digit characters, as `Number.prototype.toString`/`BN.toString`
emit them. -/
def digitToChar : Nat → Char
  | 0 => '0' | 1 => '1' | 2 => '2' | 3 => '3' | 4 => '4'
  | 5 => '5' | 6 => '6' | 7 => '7' | 8 => '8' | _ => '9'

/-- Little-endian digit characters of `n` (with `fuel ≥ n` steps available). -/
def natToCharsAux : Nat → Nat → List Char
  | 0, _ => []
  | _ + 1, 0 => []
  | fuel + 1, n + 1 =>
    digitToChar ((n + 1) % 10) :: natToCharsAux fuel ((n + 1) / 10)

/-- Model of `BN.prototype.toString(10)` for a non-negative value: big-endian decimal
digits, no leading zeros, `"0"` for zero. -/
def natToChars (n : Nat) : List Char :=
  if n = 0 then ['0'] else (natToCharsAux n n).reverse

/-- Model of `String.prototype.split(".")`: segments of the string between the dots. -/
def splitDot : List Char → List (List Char)
  | [] => [[]]
  | c :: rest =>
    if c = '.' then [] :: splitDot rest
    else
      match splitDot rest with
      | s :: ss => (c :: s) :: ss
      | [] => [[c]]

/-- Model of `String.prototype.trim()`: drop whitespace from both ends. -/
def trim (s : List Char) : List Char :=
  ((s.dropWhile Char.isWhitespace).reverse.dropWhile Char.isWhitespace).reverse

/-- Model of `replace(/^0+(?=\d)/, "")`: drop leading zeros as long as another digit
follows, so at least one character always remains. -/
def stripLeadingZeros : List Char → List Char
  | [] => []
  | [c] => [c]
  | c0 :: c :: rest =>
    if c0 = '0' ∧ c.isDigit then stripLeadingZeros (c :: rest)
    else c0 :: c :: rest

/-- Model of `replace(/^0+/, "")`: drop every leading zero. -/
def dropZeros (l : List Char) : List Char := l.dropWhile (· = '0')

/-- Model of `replace(/0+$/, "")`: drop every trailing zero. -/
def stripTrailingZeros (l : List Char) : List Char :=
  (l.reverse.dropWhile (· = '0')).reverse

/-- Model of `String.prototype.padEnd(n, "0")`. -/
def padEnd (l : List Char) (n : Nat) : List Char :=
  l ++ List.replicate (n - l.length) '0'

/-- Model of `String.prototype.padStart(n, "0")`. -/
def padStart (l : List Char) (n : Nat) : List Char :=
  List.replicate (n - l.length) '0' ++ l

/-- Model of `x || "0"` on a JS string: the empty string is falsy. -/
def orZero (l : List Char) : List Char := if l.isEmpty then ['0'] else l

/-! ## AmountConverter (src/unnamed/part_002, `uiAmountToBN` /
`formatTokenAmount`) -/

/-- Model of `uiAmountToBN(input, decimals)`: trim; empty → BN(0); leading '-' →
BN(0); split on '.', take the first segment as the whole part (first two
segments only — extra segments are dropped by the destructuring), strip its
leading zeros, truncate/right-pad the fractional segment to `decimals`
digits, concatenate, strip leading zeros, parse as a BN. -/
def uiAmountToBN (input : List Char) (decimals : Nat) : Int :=
  let sanitized := trim input
  if sanitized.isEmpty then 0
  else if sanitized.head? = some '-' then 0
  else
    let whole := (splitDot sanitized).headD ['0']
    let fraction := (splitDot sanitized).getD 1 []
    let wholeDigits := orZero (stripLeadingZeros whole)
    let fractionDigits := padEnd (fraction.take decimals) decimals
    let combined := orZero (dropZeros (wholeDigits ++ fractionDigits))
    bnOfChars combined

/-- Model of `formatTokenAmount(amount, decimals)`: decimals = 0 prints the integer
verbatim; otherwise left-pad its digits to `decimals + 1`, split into whole
and fractional parts, strip trailing fractional zeros, and print
`whole.fraction` or just `whole` when the fraction is empty. -/
def formatTokenAmount (amount : Nat) (decimals : Nat) : List Char :=
  if decimals = 0 then natToChars amount
  else
    let raw := padStart (natToChars amount) (decimals + 1)
    let whole := orZero (raw.take (raw.length - decimals))
    let fraction := stripTrailingZeros (raw.drop (raw.length - decimals))
    if fraction.isEmpty then whole else whole ++ '.' :: fraction
/-- Helper for relating `natToCharsAux` to values: little-endian value of a
digit string. -/
def valLE : List Char → Nat
  | [] => 0
  | c :: t => charToDigit c + 10 * valLE t

/-- The fractional segment of a rendered decimal string (after the first
dot). -/
def fractionPart (s : List Char) : List Char := (splitDot s).getD 1 []

/-! ## On-chain model: keys, accounts, network effects

Public keys are abstract (`Nat`); the two CLMM program identities of the
Raydium SDK (mainnet `CLMM_PROGRAM_ID` and `DEVNET_PROGRAM_ID.CLMM_PROGRAM_ID`)
are distinct on-chain addresses, modelled as distinct constants. RPC and SDK
collaborators are oracle fields of an `RpcEnv`; every network round-trip is
recorded, in issue order, in a `NetEffect` trace. -/

abbrev PK := Nat

abbrev TxSig := Nat

def CLMM_PROGRAM_ID : PK := 0

def DEVNET_CLMM_PROGRAM_ID : PK := 1

def TOKEN_PROGRAM_ID : PK := 2

/-- Value of `PoolInfoLayout.span`. -/
def CLMM_POOL_ACCOUNT_SIZE : Nat := 1544

structure AccountInfo where
  owner : PK
  dataLength : Nat
deriving DecidableEq

/-- On-chain account state: what `connection.getAccountInfo` answers. -/
def Chain := PK → Option AccountInfo

def updateChain (c : Chain) (a : PK) (i : AccountInfo) : Chain :=
  fun x => if x = a then some i else c x

/-- One network round-trip issued by the code. -/
inductive NetEffect
  | getAccountInfo (addr : PK)
  | raydiumLoad
  | sendTransaction
  | getLatestBlockhash
  | confirmTransaction
  | fetchWalletTokenAccounts
  | getPoolInfoFromRpc (pool : PK)
  | fetchEpochInfo
  | buildAndExecuteSwap
deriving DecidableEq

/-- Number of transaction submissions in a trace. -/
def countSend : List NetEffect → Nat
  | [] => 0
  | .sendTransaction :: t => countSend t + 1
  | _ :: t => countSend t

/-- One constructor per distinct thrown `Error` in the source. -/
inductive SwapError
  | walletNotConnected
  | noSendTransaction
  | invalidAddress
  | poolNotFound
  | wrongProgramOwner
  | malformedAccount
  | walletCannotSign
  | ataNoSendTransaction
  | accountCreationFailed
  | rpcFailure
  | tokenNotInPool
  | nonPositiveAmount
  | poolDataUnavailable
  | insufficientLiquidity
  | sendFailed
deriving DecidableEq

/-- VersionedTransaction, abstractly. -/
abbrev Tx := Nat

/-- The wallet-adapter surface used by the code. -/
structure WalletState where
  publicKey : Option PK
  hasSendTransaction : Bool
  signAllTransactions : Option (List Tx → List Tx)
  signTransaction : Option (Tx → Tx)

/-- The fallback loop of `resolveSignAllTransactions`: sign each transaction
one at a time, in order. -/
def signSequentially (signOne : Tx → Tx) : List Tx → List Tx
  | [] => []
  | t :: ts => signOne t :: signSequentially signOne ts

/-- Model of `resolveSignAllTransactions`: prefer the wallet's `signAllTransactions`;
otherwise fall back to sequential per-transaction `signTransaction`;
otherwise fail. -/
def resolveSignAllTransactions (w : WalletState) :
    Except SwapError (List Tx → List Tx) :=
  match w.signAllTransactions with
  | some f => .ok f
  | none =>
    match w.signTransaction with
    | some g => .ok (signSequentially g)
    | none => .error .walletCannotSign

structure RpcMint where
  address : PK
  symbol : Option (List Char)
  decimals : Nat
deriving DecidableEq

/-- What `clmm.getPoolInfoFromRpc` returns: the two pool mints plus the
presence of tick data and compute info. -/
structure PoolRpcSnapshot where
  mintA : RpcMint
  mintB : RpcMint
  hasTickData : Bool
  hasComputeInfo : Bool
deriving DecidableEq

/-- What `PoolUtils.computeAmountOut` returns (the pool-math oracle). -/
structure ComputeResult where
  allTrade : Bool
  minAmountOut : Nat
deriving DecidableEq

/-- Oracle behaviour of the network and SDK collaborators. -/
structure RpcEnv where
  parsePk : List Char → Option PK
  deriveAta : PK → PK → PK
  raydiumLoadOk : Bool
  ataSendOk : Bool
  ataConfirmOk : Bool
  walletAccountsOk : Bool
  poolRpc : PK → Option PoolRpcSnapshot
  epochOk : Bool
  computeAmountOut : Int → Rat → ComputeResult
  executeResult : Option TxSig

/-! ## PoolResolver (`assertClmmPoolAccount`) -/

/-- Model of `assertClmmPoolAccount`: parse the pool id, fetch the account info, fail
`poolNotFound` when absent, fail `wrongProgramOwner` unless the owner is one
of the two CLMM program ids, fail `malformedAccount` when the data is
smaller than the CLMM struct span. -/
def assertClmmPoolAccount (env : RpcEnv) (chain : Chain)
    (poolId : List Char) : Except SwapError PK × List NetEffect :=
  match env.parsePk poolId with
  | none => (.error .invalidAddress, [])
  | some pk =>
    match chain pk with
    | none => (.error .poolNotFound, [.getAccountInfo pk])
    | some info =>
      if info.owner = CLMM_PROGRAM_ID ∨ info.owner = DEVNET_CLMM_PROGRAM_ID then
        if info.dataLength < CLMM_POOL_ACCOUNT_SIZE then
          (.error .malformedAccount, [.getAccountInfo pk])
        else (.ok pk, [.getAccountInfo pk])
      else (.error .wrongProgramOwner, [.getAccountInfo pk])

/-! ## AccountProvisioner (`ensureAtaExists`) -/

/-- Model of `ensureAtaExists`: derive the associated token account address (pure),
query its existence; when present return immediately; otherwise submit one
creation transaction and await confirmed commitment. The chain records the
account only once creation is confirmed. -/
def ensureAtaExists (env : RpcEnv) (chain : Chain) (wallet : WalletState)
    (owner mint : PK) : Except SwapError PK × Chain × List NetEffect :=
  let ata := env.deriveAta mint owner
  match chain ata with
  | some _ => (.ok ata, chain, [.getAccountInfo ata])
  | none =>
    if wallet.hasSendTransaction = false then
      (.error .ataNoSendTransaction, chain, [.getAccountInfo ata])
    else if env.ataSendOk = false then
      (.error .accountCreationFailed, chain,
       [.getAccountInfo ata, .sendTransaction])
    else if env.ataConfirmOk = false then
      (.error .accountCreationFailed, chain,
       [.getAccountInfo ata, .sendTransaction, .getLatestBlockhash,
        .confirmTransaction])
    else
      (.ok ata, updateChain chain ata ⟨TOKEN_PROGRAM_ID, 165⟩,
       [.getAccountInfo ata, .sendTransaction, .getLatestBlockhash,
        .confirmTransaction])

/-! ## SwapExecutor (`performClmmSwap`) -/

structure SwapParams where
  poolId : List Char
  tokenInMint : List Char
  tokenOutMint : List Char
  amount : List Char
  slippage : Option Rat

structure ClmmSwapOk where
  txId : TxSig
  amountOut : Nat
  amountOutUi : List Char
  outputMint : PK
  outputSymbol : Option (List Char)
deriving DecidableEq

/-- Membership test of a mint among the pool's two mints, as the source
compares base58 addresses against `poolInfo.mintA/mintB`. -/
def mintLookup (snap : PoolRpcSnapshot) (mint : PK) : Option RpcMint :=
  if snap.mintA.address = mint then some snap.mintA
  else if snap.mintB.address = mint then some snap.mintB
  else none

/-- The part of `performClmmSwap` after the pool-info RPC fetch: pool
membership of both mints, amount conversion and positivity, tick data,
epoch fetch, pool-math oracle, swap build/execute. `t` is the trace issued
so far. -/
def performClmmSwapTail (env : RpcEnv) (p : SwapParams)
    (inputMint outputMint : PK) (snap : PoolRpcSnapshot)
    (t : List NetEffect) : Except SwapError ClmmSwapOk × List NetEffect :=
  match mintLookup snap inputMint with
  | none => (.error .tokenNotInPool, t)
  | some inInfo =>
    match mintLookup snap outputMint with
    | none => (.error .tokenNotInPool, t)
    | some outInfo =>
      let amountIn := uiAmountToBN p.amount inInfo.decimals
      if amountIn = 0 ∨ amountIn < 0 then (.error .nonPositiveAmount, t)
      else if snap.hasTickData = false ∨ snap.hasComputeInfo = false then
        (.error .poolDataUnavailable, t)
      else if env.epochOk = false then
        (.error .rpcFailure, t ++ [.fetchEpochInfo])
      else
        let comp := env.computeAmountOut amountIn (p.slippage.getD (1 / 100))
        if comp.allTrade = false then
          (.error .insufficientLiquidity, t ++ [.fetchEpochInfo])
        else
          match env.executeResult with
          | none =>
            (.error .sendFailed, t ++ [.fetchEpochInfo, .buildAndExecuteSwap])
          | some sig =>
            (.ok { txId := sig, amountOut := comp.minAmountOut,
                   amountOutUi :=
                     formatTokenAmount comp.minAmountOut outInfo.decimals,
                   outputMint := outputMint,
                   outputSymbol := outInfo.symbol },
             t ++ [.fetchEpochInfo, .buildAndExecuteSwap])

/-- Model of `performClmmSwap`, with every step in source order: wallet checks, mint
address parses, pool account assertion, Raydium context (signing capability
then SDK load), ATA provisioning for both mints, wallet token account fetch,
pool info fetch, then the tail above. -/
def performClmmSwap (env : RpcEnv) (chain : Chain) (wallet : WalletState)
    (p : SwapParams) : Except SwapError ClmmSwapOk × List NetEffect :=
  match wallet.publicKey with
  | none => (.error .walletNotConnected, [])
  | some owner =>
    if wallet.hasSendTransaction = false then (.error .noSendTransaction, [])
    else
      match env.parsePk p.tokenInMint with
      | none => (.error .invalidAddress, [])
      | some inputMint =>
        match env.parsePk p.tokenOutMint with
        | none => (.error .invalidAddress, [])
        | some outputMint =>
          match assertClmmPoolAccount env chain p.poolId with
          | (.error e, t0) => (.error e, t0)
          | (.ok poolPk, t0) =>
            match resolveSignAllTransactions wallet with
            | .error e => (.error e, t0)
            | .ok _ =>
              if env.raydiumLoadOk = false then
                (.error .rpcFailure, t0 ++ [.raydiumLoad])
              else
                match ensureAtaExists env chain wallet owner inputMint with
                | (.error e, _, ta) => (.error e, t0 ++ [.raydiumLoad] ++ ta)
                | (.ok _, chain1, ta) =>
                  match ensureAtaExists env chain1 wallet owner outputMint with
                  | (.error e, _, tb) =>
                    (.error e, t0 ++ [.raydiumLoad] ++ ta ++ tb)
                  | (.ok _, _, tb) =>
                    if env.walletAccountsOk = false then
                      (.error .rpcFailure,
                       t0 ++ [.raydiumLoad] ++ ta ++ tb
                         ++ [.fetchWalletTokenAccounts])
                    else
                      match env.poolRpc poolPk with
                      | none =>
                        (.error .rpcFailure,
                         t0 ++ [.raydiumLoad] ++ ta ++ tb
                           ++ [.fetchWalletTokenAccounts,
                               .getPoolInfoFromRpc poolPk])
                      | some snap =>
                        performClmmSwapTail env p inputMint outputMint snap
                          (t0 ++ [.raydiumLoad] ++ ta ++ tb
                            ++ [.fetchWalletTokenAccounts,
                                .getPoolInfoFromRpc poolPk])

def c8Wallet : WalletState :=
  { publicKey := some 7, hasSendTransaction := true,
    signAllTransactions := none, signTransaction := some (fun t => t + 1) }

def c7Env : RpcEnv :=
  { parsePk := fun _ => none,
    deriveAta := fun m o => 1000 * o + m,
    raydiumLoadOk := true, ataSendOk := true, ataConfirmOk := true,
    walletAccountsOk := true, poolRpc := fun _ => none, epochOk := true,
    computeAmountOut := fun _ _ => ⟨true, 0⟩, executeResult := none }

def c7Chain : Chain :=
  fun a => if a = 7010 then some ⟨TOKEN_PROGRAM_ID, 165⟩ else none

def c7Wallet : WalletState :=
  { publicKey := some 7, hasSendTransaction := true,
    signAllTransactions := some id, signTransaction := none }

def c3Env : RpcEnv :=
  { parsePk := fun s => if s = "pool".data then some 5 else none,
    deriveAta := fun m o => 1000 * o + m,
    raydiumLoadOk := true, ataSendOk := true, ataConfirmOk := true,
    walletAccountsOk := true, poolRpc := fun _ => none, epochOk := true,
    computeAmountOut := fun _ _ => ⟨true, 0⟩, executeResult := none }

def c3Chain : Chain :=
  fun a => if a = 5 then some ⟨DEVNET_CLMM_PROGRAM_ID, 1544⟩ else none

inductive SolanaCluster
  | devnet
  | mainnet
deriving DecidableEq

/-- Modelled from the spec: "the single allow-listed program identity
appropriate to the current network variant" (one identity per network
variant, §4.2). The code itself never consults the network variant in
`assertClmmPoolAccount`; this definition expresses the claim's reading. -/
def networkAppropriateId : SolanaCluster → PK
  | .mainnet => CLMM_PROGRAM_ID
  | .devnet => DEVNET_CLMM_PROGRAM_ID

def c2Env : RpcEnv :=
  { parsePk := fun s =>
      if s = "pool".data then some 5
      else if s = "in".data then some 10
      else if s = "out".data then some 11
      else none,
    deriveAta := fun m o => 1000 * o + m,
    raydiumLoadOk := true, ataSendOk := true, ataConfirmOk := true,
    walletAccountsOk := true,
    poolRpc := fun pk =>
      if pk = 5 then
        some { mintA := { address := 20, symbol := none, decimals := 6 },
               mintB := { address := 21, symbol := none, decimals := 6 },
               hasTickData := true, hasComputeInfo := true }
      else none,
    epochOk := true,
    computeAmountOut := fun _ _ => ⟨true, 42⟩,
    executeResult := some 99 }

def c2Chain : Chain :=
  fun a =>
    if a = 5 then some ⟨CLMM_PROGRAM_ID, 1544⟩
    else if a = 7010 then some ⟨TOKEN_PROGRAM_ID, 165⟩
    else if a = 7011 then some ⟨TOKEN_PROGRAM_ID, 165⟩
    else none

def c2Wallet : WalletState :=
  { publicKey := some 7, hasSendTransaction := true,
    signAllTransactions := some id, signTransaction := none }

def c2Params : SwapParams :=
  { poolId := "pool".data, tokenInMint := "in".data,
    tokenOutMint := "out".data, amount := "1".data, slippage := none }

/-! ## C5: the snapshot watch discards superseded results

The `useEffect` body in `useClmmSwap` (src/unnamed/part_000) re-runs when
the watched pool address changes; React runs the previous run's cleanup
(setting that run's `cancelled` flag) before the new run starts; each
`.then`/`.catch`/`.finally` continuation checks its own `cancelled` flag and
returns without touching state when it is set. The model below keeps one
flag per fetch generation; `start g` is a new effect run (cancel the active
generation, mark loading, clear the error, issue the fetch), `complete g r`
is fetch `g`'s promise settling. -/

/-- The display snapshot built by `fetchClmmPoolSnapshot` (`price`, a JS
float, is omitted: no claim depends on it). -/
structure ClmmPoolSnapshot where
  id : PK
  mintA : RpcMint
  mintB : RpcMint
  tickCurrent : Int
deriving DecidableEq

inductive FetchOutcome
  | ok (s : ClmmPoolSnapshot)
  | failure (msg : List Char)
deriving DecidableEq

inductive WatchEvent
  | start (g : Nat)
  | complete (g : Nat) (r : FetchOutcome)
deriving DecidableEq

structure WatchState where
  cancelled : Nat → Bool
  active : Option Nat
  poolSnapshot : Option ClmmPoolSnapshot
  snapshotLoading : Bool
  snapshotError : Option (List Char)

/-- The `.then` / `.catch` / `.finally` state updates, when not cancelled. -/
def applyOutcome (s : WatchState) (r : FetchOutcome) : WatchState :=
  match r with
  | .ok snap =>
    { s with poolSnapshot := some snap, snapshotLoading := false }
  | .failure m =>
    { s with poolSnapshot := none, snapshotError := some m,
             snapshotLoading := false }

/-- One scheduler step of the watch. -/
def watchStep (s : WatchState) (e : WatchEvent) : WatchState :=
  match e with
  | .start g =>
    { s with
      cancelled := fun g2 => if s.active = some g2 then true else s.cancelled g2,
      active := some g,
      snapshotLoading := true,
      snapshotError := none }
  | .complete g r => if s.cancelled g then s else applyOutcome s r

def c5State : WatchState :=
  { cancelled := fun _ => false, active := some 0, poolSnapshot := none,
    snapshotLoading := true, snapshotError := none }


example : formatTokenAmount 100000 6 = "0.1".data := by decide
example : formatTokenAmount 1000000 6 = "1".data := by decide
example : uiAmountToBN "0.1".data 9 = 100000000 := by decide
example : uiAmountToBN "".data 6 = 0 := by decide
example : uiAmountToBN "-1".data 6 = 0 := by decide
example : uiAmountToBN ".-5".data 6 = -50000 := by decide
example : uiAmountToBN "1.2.3".data 4 = uiAmountToBN "1.2".data 4 := by decide
example : uiAmountToBN (formatTokenAmount 12345 3) 3 = 12345 := by decide

/-! ## Arithmetic lemmas about digit strings -/

theorem digitsToNat_nil : digitsToNat [] = 0 := rfl

theorem digitsToNat_cons_zero (t : List Char) :
    digitsToNat ('0' :: t) = digitsToNat t := rfl

theorem digitsToNat_foldl (b : List Char) (init : Nat) :
    b.foldl (fun a c => 10 * a + charToDigit c) init
      = init * 10 ^ b.length + digitsToNat b := by
  induction b generalizing init with
  | nil => simp [digitsToNat]
  | cons c t ih =>
    have h1 := ih (10 * init + charToDigit c)
    have h2 := ih (10 * 0 + charToDigit c)
    simp only [List.foldl_cons, List.length_cons, digitsToNat] at *
    rw [h1, h2]
    ring

theorem digitsToNat_append (a b : List Char) :
    digitsToNat (a ++ b) = digitsToNat a * 10 ^ b.length + digitsToNat b := by
  have h : digitsToNat (a ++ b)
      = b.foldl (fun x c => 10 * x + charToDigit c) (digitsToNat a) := by
    simp [digitsToNat, List.foldl_append]
  rw [h, digitsToNat_foldl]

theorem digitsToNat_replicate_zero (k : Nat) :
    digitsToNat (List.replicate k '0') = 0 := by
  induction k with
  | zero => rfl
  | succ n ih => rw [List.replicate_succ, digitsToNat_cons_zero, ih]

theorem digitsToNat_zeros_append (k : Nat) (l : List Char) :
    digitsToNat (List.replicate k '0' ++ l) = digitsToNat l := by
  rw [digitsToNat_append, digitsToNat_replicate_zero]
  ring

theorem digitsToNat_dropZeros (l : List Char) :
    digitsToNat (dropZeros l) = digitsToNat l := by
  induction l with
  | nil => rfl
  | cons c t ih =>
    by_cases h : c = '0'
    · subst h
      have hd : dropZeros ('0' :: t) = dropZeros t := by
        simp [dropZeros, List.dropWhile_cons]
      rw [hd, ih, digitsToNat_cons_zero]
    · have hd : dropZeros (c :: t) = c :: t := by
        simp [dropZeros, List.dropWhile_cons, h]
      rw [hd]

theorem digitsToNat_stripLeadingZeros (l : List Char) :
    digitsToNat (stripLeadingZeros l) = digitsToNat l := by
  induction l with
  | nil => rfl
  | cons a t ih =>
    cases t with
    | nil => rfl
    | cons c rest =>
      by_cases h : a = '0' ∧ c.isDigit = true
      · have hs : stripLeadingZeros (a :: c :: rest)
            = stripLeadingZeros (c :: rest) := by
          simp only [stripLeadingZeros]
          rw [if_pos h]
        rw [hs, ih, h.1, digitsToNat_cons_zero]
      · have hs : stripLeadingZeros (a :: c :: rest) = a :: c :: rest := by
          simp only [stripLeadingZeros]
          rw [if_neg h]
        rw [hs]

theorem digitsToNat_orZero (l : List Char) :
    digitsToNat (orZero l) = digitsToNat l := by
  cases l with
  | nil => rfl
  | cons c t => rfl

theorem digitsToNat_padEnd (l : List Char) (n : Nat) :
    digitsToNat (padEnd l n) = digitsToNat l * 10 ^ (n - l.length) := by
  unfold padEnd
  rw [digitsToNat_append, digitsToNat_replicate_zero, List.length_replicate]
  ring

theorem padEnd_length {l : List Char} {n : Nat} (h : l.length ≤ n) :
    (padEnd l n).length = n := by
  unfold padEnd
  rw [List.length_append, List.length_replicate]
  omega


theorem digitsToNat_reverse (l : List Char) :
    digitsToNat l.reverse = valLE l := by
  induction l with
  | nil => rfl
  | cons c t ih =>
    rw [List.reverse_cons, digitsToNat_append, ih]
    have h1 : digitsToNat [c] = charToDigit c := by
      simp [digitsToNat]
    rw [h1, List.length_singleton, valLE]
    ring

theorem charToDigit_digitToChar {d : Nat} (h : d < 10) :
    charToDigit (digitToChar d) = d := by
  interval_cases d <;> decide

theorem digitToChar_isDigit (d : Nat) : (digitToChar d).isDigit = true := by
  unfold digitToChar
  split <;> decide

theorem valLE_natToCharsAux :
    ∀ fuel n, n ≤ fuel → valLE (natToCharsAux fuel n) = n := by
  intro fuel
  induction fuel with
  | zero =>
    intro n h
    interval_cases n
    rfl
  | succ f ih =>
    intro n h
    match n with
    | 0 => rfl
    | m + 1 =>
      rw [natToCharsAux, valLE,
          charToDigit_digitToChar (Nat.mod_lt _ (by norm_num)),
          ih ((m + 1) / 10) (by
            have := Nat.div_lt_self (Nat.succ_pos m) (by norm_num : 1 < 10)
            omega)]
      exact Nat.mod_add_div (m + 1) 10

theorem digitsToNat_natToChars (n : Nat) :
    digitsToNat (natToChars n) = n := by
  unfold natToChars
  by_cases h : n = 0
  · rw [if_pos h, h]
    rfl
  · rw [if_neg h, digitsToNat_reverse, valLE_natToCharsAux n n le_rfl]

theorem natToChars_ne_nil (n : Nat) : natToChars n ≠ [] := by
  unfold natToChars
  split
  · simp
  · next h =>
    obtain ⟨m, rfl⟩ : ∃ m, n = m + 1 := ⟨n - 1, by omega⟩
    rw [natToCharsAux]
    simp

theorem natToCharsAux_digits :
    ∀ fuel n, ∀ c ∈ natToCharsAux fuel n, c.isDigit = true := by
  intro fuel
  induction fuel with
  | zero => intro n c h; simp [natToCharsAux] at h
  | succ f ih =>
    intro n c h
    match n with
    | 0 => simp [natToCharsAux] at h
    | m + 1 =>
      rw [natToCharsAux] at h
      rcases List.mem_cons.mp h with h1 | h2
      · subst h1; exact digitToChar_isDigit _
      · exact ih _ c h2

theorem natToChars_digits (n : Nat) : ∀ c ∈ natToChars n, c.isDigit = true := by
  intro c h
  unfold natToChars at h
  split at h
  · simp at h
    subst h
    decide
  · rw [List.mem_reverse] at h
    exact natToCharsAux_digits _ _ c h

/-! ## Character-class facts -/

theorem isDigit_not_ws {c : Char} (h : c.isDigit = true) :
    c.isWhitespace = false := by
  by_cases h1 : c = ' '
  · subst h1; exact absurd h (by decide)
  by_cases h2 : c = '\t'
  · subst h2; exact absurd h (by decide)
  by_cases h3 : c = '\r'
  · subst h3; exact absurd h (by decide)
  by_cases h4 : c = '\n'
  · subst h4; exact absurd h (by decide)
  simp [Char.isWhitespace, h1, h2, h3, h4]

theorem isDigit_ne_dash {c : Char} (h : c.isDigit = true) : c ≠ '-' := by
  intro e
  subst e
  exact absurd h (by decide)

theorem isDigit_ne_dot {c : Char} (h : c.isDigit = true) : c ≠ '.' := by
  intro e
  subst e
  exact absurd h (by decide)

/-! ## trim and splitDot lemmas -/

theorem dropWhile_eq_self_of_all {p : Char → Bool} {l : List Char}
    (h : ∀ c ∈ l, p c = false) : l.dropWhile p = l := by
  cases l with
  | nil => rfl
  | cons a t =>
    rw [List.dropWhile_cons, h a (List.mem_cons_self a t)]
    simp

theorem trim_eq_self {l : List Char} (h : ∀ c ∈ l, c.isWhitespace = false) :
    trim l = l := by
  unfold trim
  rw [dropWhile_eq_self_of_all h,
      dropWhile_eq_self_of_all
        (fun c hc => h c (List.mem_reverse.mp hc)),
      List.reverse_reverse]

theorem mem_trim {c : Char} {l : List Char} (h : c ∈ trim l) : c ∈ l := by
  unfold trim at h
  rw [List.mem_reverse] at h
  have h1 : c ∈ (l.dropWhile Char.isWhitespace).reverse :=
    (List.dropWhile_sublist _).mem h
  rw [List.mem_reverse] at h1
  exact (List.dropWhile_sublist _).mem h1

theorem splitDot_ne_nil (l : List Char) : splitDot l ≠ [] := by
  cases l with
  | nil => simp [splitDot]
  | cons c t =>
    simp only [splitDot]
    split
    · simp
    · split <;> simp

theorem splitDot_no_dot : ∀ {l : List Char}, '.' ∉ l → splitDot l = [l] := by
  intro l h
  induction l with
  | nil => rfl
  | cons c t ih =>
    have hc : ¬ c = '.' := fun e => h (by simp [e])
    have ht : '.' ∉ t := fun m => h (List.mem_cons_of_mem _ m)
    simp only [splitDot]
    rw [if_neg hc, ih ht]

theorem splitDot_append {w : List Char} (rest : List Char) (h : '.' ∉ w) :
    splitDot (w ++ '.' :: rest) = w :: splitDot rest := by
  induction w with
  | nil =>
    simp only [List.nil_append, splitDot, if_pos]
  | cons c t ih =>
    have hc : ¬ c = '.' := fun e => h (by simp [e])
    have ht : '.' ∉ t := fun m => h (List.mem_cons_of_mem _ m)
    simp only [List.cons_append, splitDot, List.append_eq]
    rw [if_neg hc, ih ht]

theorem mem_of_mem_splitDot :
    ∀ {l seg : List Char}, seg ∈ splitDot l → ∀ {c}, c ∈ seg → c ∈ l := by
  intro l
  induction l with
  | nil =>
    intro seg hs c hc
    simp [splitDot] at hs
    subst hs
    simp at hc
  | cons a t ih =>
    intro seg hs c hc
    simp only [splitDot] at hs
    by_cases ha : a = '.'
    · rw [if_pos ha] at hs
      rcases List.mem_cons.mp hs with h1 | h1
      · subst h1; simp at hc
      · exact List.mem_cons_of_mem _ (ih h1 hc)
    · rw [if_neg ha] at hs
      rcases hsp : splitDot t with _ | ⟨s, ss⟩
      · exact absurd hsp (splitDot_ne_nil t)
      · rw [hsp] at hs
        rcases List.mem_cons.mp hs with h1 | h1
        · subst h1
          rcases List.mem_cons.mp hc with h2 | h2
          · subst h2; exact List.mem_cons_self _ _
          · exact List.mem_cons_of_mem _
              (ih (hsp ▸ List.mem_cons_self s ss) h2)
        · exact List.mem_cons_of_mem _
            (ih (hsp ▸ List.mem_cons_of_mem s h1) hc)

/-! ## Membership helpers for the uiAmountToBN pipeline -/

theorem mem_orZero {c : Char} {l : List Char} (h : c ∈ orZero l) :
    c = '0' ∨ c ∈ l := by
  unfold orZero at h
  split at h
  · simp at h; exact Or.inl h
  · exact Or.inr h

theorem mem_stripLeadingZeros :
    ∀ {l : List Char} {c : Char}, c ∈ stripLeadingZeros l → c ∈ l := by
  intro l
  induction l with
  | nil => intro c h; exact h
  | cons a t ih =>
    intro c h
    cases t with
    | nil => exact h
    | cons b rest =>
      by_cases hb : a = '0' ∧ b.isDigit = true
      · rw [show stripLeadingZeros (a :: b :: rest)
              = stripLeadingZeros (b :: rest) by
            simp only [stripLeadingZeros]; rw [if_pos hb]] at h
        exact List.mem_cons_of_mem _ (ih h)
      · rw [show stripLeadingZeros (a :: b :: rest) = a :: b :: rest by
            simp only [stripLeadingZeros]; rw [if_neg hb]] at h
        exact h

theorem mem_dropZeros {c : Char} {l : List Char} (h : c ∈ dropZeros l) :
    c ∈ l :=
  (List.dropWhile_sublist _).mem h

theorem mem_padEnd {c : Char} {l : List Char} {n : Nat} (h : c ∈ padEnd l n) :
    c ∈ l ∨ c = '0' := by
  unfold padEnd at h
  rcases List.mem_append.mp h with h1 | h1
  · exact Or.inl h1
  · exact Or.inr (List.eq_of_mem_replicate h1)

theorem mem_getD_splitDot {c : Char} {l : List Char} {i : Nat}
    (h : c ∈ (splitDot l).getD i []) : c ∈ l := by
  rcases hg : (splitDot l).get? i with _ | seg
  · rw [List.getD_eq_getElem?_getD, ← List.get?_eq_getElem?, hg] at h
    simp at h
  · have hm : seg ∈ splitDot l := List.get?_mem hg
    rw [List.getD_eq_getElem?_getD, ← List.get?_eq_getElem?, hg] at h
    simp only [Option.getD_some] at h
    exact mem_of_mem_splitDot hm h

theorem mem_headD_splitDot {c : Char} {l : List Char}
    (h : c ∈ (splitDot l).headD ['0']) : c ∈ l := by
  rcases hs : splitDot l with _ | ⟨s, ss⟩
  · exact absurd hs (splitDot_ne_nil l)
  · rw [hs] at h
    simp only [List.headD_cons] at h
    have hm : s ∈ splitDot l := by
      rw [hs]; exact List.mem_cons_self s ss
    exact mem_of_mem_splitDot hm h

/-! ## stripTrailingZeros decomposition -/

theorem stripTrailingZeros_append_replicate (l : List Char) :
    ∃ k, l = stripTrailingZeros l ++ List.replicate k '0' := by
  refine ⟨(l.reverse.takeWhile (· = '0')).length, ?_⟩
  unfold stripTrailingZeros
  conv_lhs => rw [← List.reverse_reverse l,
    ← List.takeWhile_append_dropWhile (p := (· = '0')) (l := l.reverse)]
  rw [List.reverse_append]
  congr 1
  rw [show l.reverse.takeWhile (· = '0')
        = List.replicate (l.reverse.takeWhile (· = '0')).length '0' from
      List.eq_replicate_of_mem (fun b hb => by
        have hp := List.mem_takeWhile_imp hb
        simpa using hp)]
  rw [List.reverse_replicate, List.length_replicate]

theorem stripTrailingZeros_length_le (l : List Char) :
    (stripTrailingZeros l).length ≤ l.length := by
  obtain ⟨k, hk⟩ := stripTrailingZeros_append_replicate l
  conv_rhs => rw [hk]
  rw [List.length_append]
  omega

theorem digitsToNat_of_stripTrailingZeros_nil {l : List Char}
    (h : stripTrailingZeros l = []) : digitsToNat l = 0 := by
  obtain ⟨k, hk⟩ := stripTrailingZeros_append_replicate l
  rw [hk, h, List.nil_append, digitsToNat_replicate_zero]

theorem mem_stripTrailingZeros {c : Char} {l : List Char}
    (h : c ∈ stripTrailingZeros l) : c ∈ l := by
  unfold stripTrailingZeros at h
  rw [List.mem_reverse] at h
  have h1 := (List.dropWhile_sublist _).mem h
  rw [List.mem_reverse] at h1
  exact h1

/-! ## Evaluation of uiAmountToBN on trim-free, sign-free input -/

theorem bnOfChars_orZero {Y : List Char} (h : ∀ c ∈ Y, c ≠ '-') :
    bnOfChars (orZero Y) = (digitsToNat Y : Int) := by
  have hneg : ¬ (orZero Y).head? = some '-' := by
    cases Y with
    | nil => decide
    | cons c t =>
      intro e
      rw [show orZero (c :: t) = c :: t from rfl, List.head?_cons] at e
      exact h c (List.mem_cons_self _ _) (Option.some.inj e)
  unfold bnOfChars
  rw [if_neg hneg, digitsToNat_orZero]

/-- Core evaluation: on input without whitespace and without '-', the parsed
value is (whole digits) · 10^d plus the fraction truncated to `d` digits and
right-padded with zeros. -/
theorem uiAmountToBN_eval (s : List Char) (d : Nat)
    (hws : ∀ c ∈ s, c.isWhitespace = false)
    (hne : s ≠ [])
    (hdash : ∀ c ∈ s, c ≠ '-') :
    uiAmountToBN s d
      = ((digitsToNat ((splitDot s).headD ['0']) * 10 ^ d
          + digitsToNat (((splitDot s).getD 1 []).take d)
            * 10 ^ (d - (((splitDot s).getD 1 []).take d).length) : Nat) :
          Int) := by
  have htrim : trim s = s := trim_eq_self hws
  have hempty : ¬ s.isEmpty = true := by
    cases s with
    | nil => exact absurd rfl hne
    | cons a t => simp
  have hhead : ¬ s.head? = some '-' := by
    cases s with
    | nil => simp
    | cons a t =>
      rw [List.head?_cons]
      intro e
      exact hdash a (List.mem_cons_self _ _) (Option.some.inj e)
  have htk : (((splitDot s).getD 1 []).take d).length ≤ d := by
    rw [List.length_take]
    exact min_le_left _ _
  have hmem : ∀ c ∈ dropZeros
      (orZero (stripLeadingZeros ((splitDot s).headD ['0']))
        ++ padEnd (((splitDot s).getD 1 []).take d) d), c ≠ '-' := by
    intro c hc
    rcases List.mem_append.mp (mem_dropZeros hc) with h1 | h1
    · rcases mem_orZero h1 with h2 | h2
      · subst h2; decide
      · exact hdash c (mem_headD_splitDot (mem_stripLeadingZeros h2))
    · rcases mem_padEnd h1 with h2 | h2
      · exact hdash c (mem_getD_splitDot (List.take_subset _ _ h2))
      · subst h2; decide
  simp only [uiAmountToBN, htrim]
  rw [if_neg hempty, if_neg hhead, bnOfChars_orZero hmem,
      digitsToNat_dropZeros, digitsToNat_append, digitsToNat_orZero,
      digitsToNat_stripLeadingZeros, digitsToNat_padEnd, padEnd_length htk]

/-! ## formatTokenAmount structure -/

theorem formatTokenAmount_eq (n d : Nat) (hd : ¬ d = 0) :
    formatTokenAmount n d
      = (if (stripTrailingZeros ((padStart (natToChars n) (d + 1)).drop
              ((padStart (natToChars n) (d + 1)).length - d))).isEmpty
         then orZero ((padStart (natToChars n) (d + 1)).take
              ((padStart (natToChars n) (d + 1)).length - d))
         else orZero ((padStart (natToChars n) (d + 1)).take
              ((padStart (natToChars n) (d + 1)).length - d))
            ++ '.' :: stripTrailingZeros ((padStart (natToChars n) (d + 1)).drop
              ((padStart (natToChars n) (d + 1)).length - d))) := by
  simp only [formatTokenAmount]
  rw [if_neg hd]

theorem formatTokenAmount_zero (n : Nat) :
    formatTokenAmount n 0 = natToChars n := by
  simp [formatTokenAmount]

theorem orZero_ne_nil (l : List Char) : orZero l ≠ [] := by
  cases l <;> simp [orZero]

theorem orZero_digits {l : List Char} (h : ∀ c ∈ l, c.isDigit = true) :
    ∀ c ∈ orZero l, c.isDigit = true := by
  intro c hc
  rcases mem_orZero hc with h1 | h1
  · subst h1; decide
  · exact h c h1

theorem padStart_digits (n d : Nat) :
    ∀ c ∈ padStart (natToChars n) (d + 1), c.isDigit = true := by
  intro c hc
  unfold padStart at hc
  rcases List.mem_append.mp hc with h1 | h1
  · rw [List.eq_of_mem_replicate h1]; decide
  · exact natToChars_digits n c h1

theorem padStart_val (n d : Nat) :
    digitsToNat (padStart (natToChars n) (d + 1)) = n := by
  unfold padStart
  rw [digitsToNat_zeros_append, digitsToNat_natToChars]

theorem padStart_length_ge (n d : Nat) :
    d + 1 ≤ (padStart (natToChars n) (d + 1)).length := by
  unfold padStart
  rw [List.length_append, List.length_replicate]
  have h0 : 0 < (natToChars n).length :=
    List.length_pos.mpr (natToChars_ne_nil n)
  omega

theorem digitsToNat_take_drop (raw : List Char) (m : Nat)
    (h : (raw.drop (raw.length - m)).length = m) :
    digitsToNat (raw.take (raw.length - m)) * 10 ^ m
      + digitsToNat (raw.drop (raw.length - m)) = digitsToNat raw := by
  conv_rhs => rw [← List.take_append_drop (raw.length - m) raw]
  rw [digitsToNat_append, h]

/-- Parsing the `whole?.fraction-with-trailing-zeros-stripped` rendering of a
digit string of exactly `d` fractional digits recovers the concatenated
value. -/
theorem roundtrip_core (W F : List Char) (d : Nat)
    (hWdig : ∀ c ∈ W, c.isDigit = true) (hFdig : ∀ c ∈ F, c.isDigit = true)
    (hWne : W ≠ []) (hFlen : F.length = d) :
    uiAmountToBN (if (stripTrailingZeros F).isEmpty then W
                  else W ++ '.' :: stripTrailingZeros F) d
      = ((digitsToNat W * 10 ^ d + digitsToNat F : Nat) : Int) := by
  have hWdot : '.' ∉ W := fun m => isDigit_ne_dot (hWdig _ m) rfl
  by_cases hempty : (stripTrailingZeros F).isEmpty = true
  · rw [if_pos hempty]
    have hstnil : stripTrailingZeros F = [] := by
      cases hsc : stripTrailingZeros F with
      | nil => rfl
      | cons a t => rw [hsc] at hempty; simp at hempty
    have hFval : digitsToNat F = 0 :=
      digitsToNat_of_stripTrailingZeros_nil hstnil
    rw [uiAmountToBN_eval W d
          (fun c hc => isDigit_not_ws (hWdig c hc)) hWne
          (fun c hc => isDigit_ne_dash (hWdig c hc)),
        splitDot_no_dot hWdot]
    have hgd : ([W] : List (List Char)).getD 1 [] = [] := rfl
    rw [hgd, hFval]
    simp [digitsToNat_nil]
  · rw [if_neg hempty]
    have hfracdig : ∀ c ∈ stripTrailingZeros F, c.isDigit = true :=
      fun c hc => hFdig c (mem_stripTrailingZeros hc)
    have hfracdot : '.' ∉ stripTrailingZeros F :=
      fun m => isDigit_ne_dot (hfracdig _ m) rfl
    have hfraclen : (stripTrailingZeros F).length ≤ d :=
      hFlen ▸ stripTrailingZeros_length_le F
    obtain ⟨k, hk⟩ := stripTrailingZeros_append_replicate F
    have hkd : (stripTrailingZeros F).length + k = d := by
      have hlk := congrArg List.length hk
      rw [List.length_append, List.length_replicate, hFlen] at hlk
      omega
    have hFval : digitsToNat F
        = digitsToNat (stripTrailingZeros F)
          * 10 ^ (d - (stripTrailingZeros F).length) := by
      conv_lhs => rw [hk]
      rw [digitsToNat_append, digitsToNat_replicate_zero,
          List.length_replicate,
          show k = d - (stripTrailingZeros F).length by omega]
      ring
    rw [uiAmountToBN_eval (W ++ '.' :: stripTrailingZeros F) d
          (by
            intro c hc
            rcases List.mem_append.mp hc with h1 | h1
            · exact isDigit_not_ws (hWdig c h1)
            · rcases List.mem_cons.mp h1 with h2 | h2
              · subst h2; decide
              · exact isDigit_not_ws (hfracdig c h2))
          (by simp)
          (by
            intro c hc
            rcases List.mem_append.mp hc with h1 | h1
            · exact isDigit_ne_dash (hWdig c h1)
            · rcases List.mem_cons.mp h1 with h2 | h2
              · subst h2; decide
              · exact isDigit_ne_dash (hfracdig c h2)),
        splitDot_append (stripTrailingZeros F) hWdot,
        splitDot_no_dot hfracdot]
    have hgd : (W :: [stripTrailingZeros F] : List (List Char)).getD 1 []
        = stripTrailingZeros F := rfl
    rw [hgd]
    simp only [List.headD_cons]
    rw [List.take_of_length_le hfraclen, hFval]

/-- C1: converting a non-negative integer amount to a decimal string with
`formatTokenAmount` and parsing it back with `uiAmountToBN` is exact, for
every amount `n` and every decimals count `d`. -/
theorem c1_roundtrip : ∀ (n d : Nat),
    uiAmountToBN (formatTokenAmount n d) d = (n : Int) := by
  intro n d
  by_cases hd : d = 0
  · subst hd
    rw [formatTokenAmount_zero,
        uiAmountToBN_eval (natToChars n) 0
          (fun c hc => isDigit_not_ws (natToChars_digits n c hc))
          (natToChars_ne_nil n)
          (fun c hc => isDigit_ne_dash (natToChars_digits n c hc)),
        splitDot_no_dot
          (fun m => isDigit_ne_dot (natToChars_digits n _ m) rfl)]
    have hgd : ([natToChars n] : List (List Char)).getD 1 [] = [] := rfl
    rw [hgd]
    simp [digitsToNat_nil, digitsToNat_natToChars]
  · rw [formatTokenAmount_eq n d hd]
    have hdlen : ((padStart (natToChars n) (d + 1)).drop
        ((padStart (natToChars n) (d + 1)).length - d)).length = d := by
      rw [List.length_drop]
      have := padStart_length_ge n d
      omega
    rw [roundtrip_core _ _ d
          (orZero_digits
            (fun c hc => padStart_digits n d c (List.take_subset _ _ hc)))
          (fun c hc => padStart_digits n d c (List.drop_subset _ _ hc))
          (orZero_ne_nil _) hdlen,
        digitsToNat_orZero]
    have hval := digitsToNat_take_drop (padStart (natToChars n) (d + 1)) d hdlen
    rw [padStart_val] at hval
    rw [hval]

/-! ## C4: truncation never manufactures value -/

theorem take_value_le (F : List Char) (d : Nat) :
    digitsToNat (F.take d) * 10 ^ (d - (F.take d).length) * 10 ^ F.length
      ≤ digitsToNat F * 10 ^ d := by
  by_cases h : F.length ≤ d
  · rw [List.take_of_length_le h, mul_assoc, ← pow_add]
    have he : d - F.length + F.length = d := by omega
    rw [he]
  · push_neg at h
    have hlen : (F.take d).length = d := by
      rw [List.length_take]; omega
    rw [hlen, Nat.sub_self, pow_zero, mul_one]
    have hsplit : digitsToNat F
        = digitsToNat (F.take d) * 10 ^ (F.length - d)
          + digitsToNat (F.drop d) := by
      conv_lhs => rw [← List.take_append_drop d F]
      rw [digitsToNat_append, List.length_drop]
    rw [hsplit]
    calc digitsToNat (F.take d) * 10 ^ F.length
        = digitsToNat (F.take d) * 10 ^ (F.length - d) * 10 ^ d := by
          rw [mul_assoc, ← pow_add, Nat.sub_add_cancel (le_of_lt h)]
      _ ≤ (digitsToNat (F.take d) * 10 ^ (F.length - d)
            + digitsToNat (F.drop d)) * 10 ^ d :=
          Nat.mul_le_mul_right _ (Nat.le_add_right _ _)

/-- Value of uiAmountToBN on a `whole.fraction` digit-string input. -/
theorem uiAmountToBN_whole_fraction (W F : List Char) (d : Nat)
    (hW : ∀ c ∈ W, c.isDigit = true) (hF : ∀ c ∈ F, c.isDigit = true) :
    uiAmountToBN (W ++ '.' :: F) d
      = ((digitsToNat W * 10 ^ d
          + digitsToNat (F.take d) * 10 ^ (d - (F.take d).length) : Nat) :
          Int) := by
  have hWdot : '.' ∉ W := fun m => isDigit_ne_dot (hW _ m) rfl
  have hFdot : '.' ∉ F := fun m => isDigit_ne_dot (hF _ m) rfl
  rw [uiAmountToBN_eval (W ++ '.' :: F) d
        (by
          intro c hc
          rcases List.mem_append.mp hc with h1 | h1
          · exact isDigit_not_ws (hW c h1)
          · rcases List.mem_cons.mp h1 with h2 | h2
            · subst h2; decide
            · exact isDigit_not_ws (hF c h2))
        (by simp)
        (by
          intro c hc
          rcases List.mem_append.mp hc with h1 | h1
          · exact isDigit_ne_dash (hW c h1)
          · rcases List.mem_cons.mp h1 with h2 | h2
            · subst h2; decide
            · exact isDigit_ne_dash (hF c h2)),
      splitDot_append F hWdot, splitDot_no_dot hFdot]
  have hgd : (W :: [F] : List (List Char)).getD 1 [] = F := rfl
  rw [hgd]
  simp only [List.headD_cons]

/-- C4: on a `whole.fraction` decimal-string input, uiAmountToBN truncates
(never rounds) the fraction to `d` digits, right-pads with zeros when
shorter, and concatenates; consequently the converted amount never exceeds
the exact input value scaled by `10^d`. -/
theorem c4_truncation (W F : List Char) (d : Nat)
    (hW : ∀ c ∈ W, c.isDigit = true) (hF : ∀ c ∈ F, c.isDigit = true) :
    uiAmountToBN (W ++ '.' :: F) d
        = ((digitsToNat W * 10 ^ d
            + digitsToNat (F.take d) * 10 ^ (d - (F.take d).length) : Nat) :
            Int)
      ∧ uiAmountToBN (W ++ '.' :: F) d * 10 ^ F.length
          ≤ (((digitsToNat W * 10 ^ F.length + digitsToNat F) * 10 ^ d :
              Nat) : Int) := by
  have heval := uiAmountToBN_whole_fraction W F d hW hF
  refine ⟨heval, ?_⟩
  rw [heval]
  have hN : (digitsToNat W * 10 ^ d
        + digitsToNat (F.take d) * 10 ^ (d - (F.take d).length)) * 10 ^ F.length
      ≤ (digitsToNat W * 10 ^ F.length + digitsToNat F) * 10 ^ d := by
    have h1 := take_value_le F d
    calc (digitsToNat W * 10 ^ d
          + digitsToNat (F.take d) * 10 ^ (d - (F.take d).length))
            * 10 ^ F.length
        = digitsToNat W * 10 ^ F.length * 10 ^ d
          + digitsToNat (F.take d) * 10 ^ (d - (F.take d).length)
            * 10 ^ F.length := by ring
      _ ≤ digitsToNat W * 10 ^ F.length * 10 ^ d + digitsToNat F * 10 ^ d :=
          Nat.add_le_add_left h1 _
      _ = (digitsToNat W * 10 ^ F.length + digitsToNat F) * 10 ^ d := by ring
  exact_mod_cast hN

/-- Witness for C4 at a concrete input: `uiAmountToBN "1.234" 2`. -/
theorem c4_truncation_witness :
    uiAmountToBN ("1".data ++ '.' :: "234".data) 2
        = ((digitsToNat "1".data * 10 ^ 2
            + digitsToNat ("234".data.take 2)
              * 10 ^ (2 - ("234".data.take 2).length) : Nat) : Int)
      ∧ uiAmountToBN ("1".data ++ '.' :: "234".data) 2 * 10 ^ "234".data.length
          ≤ (((digitsToNat "1".data * 10 ^ "234".data.length
              + digitsToNat "234".data) * 10 ^ 2 : Nat) : Int) :=
  c4_truncation "1".data "234".data 2 (by decide) (by decide)

/-! ## C9: the formatting contract -/


/-- C9: decimals 0 prints the integer verbatim; the two documented example
values hold; and the fractional part of the output never has more than
`decimals` digits. -/
theorem c9_format :
    (∀ n, formatTokenAmount n 0 = natToChars n)
    ∧ formatTokenAmount 100000 6 = "0.1".data
    ∧ formatTokenAmount 1000000 6 = "1".data
    ∧ ∀ n d, (fractionPart (formatTokenAmount n d)).length ≤ d := by
  refine ⟨formatTokenAmount_zero, by decide, by decide, ?_⟩
  intro n d
  by_cases hd : d = 0
  · subst hd
    rw [formatTokenAmount_zero]
    unfold fractionPart
    rw [splitDot_no_dot
          (fun m => isDigit_ne_dot (natToChars_digits n _ m) rfl)]
    have hgd : ([natToChars n] : List (List Char)).getD 1 [] = [] := rfl
    rw [hgd]
    simp
  · rw [formatTokenAmount_eq n d hd]
    have hWdig : ∀ c ∈ orZero ((padStart (natToChars n) (d + 1)).take
        ((padStart (natToChars n) (d + 1)).length - d)), c.isDigit = true :=
      orZero_digits
        (fun c hc => padStart_digits n d c (List.take_subset _ _ hc))
    have hWdot : '.' ∉ orZero ((padStart (natToChars n) (d + 1)).take
        ((padStart (natToChars n) (d + 1)).length - d)) :=
      fun m => isDigit_ne_dot (hWdig _ m) rfl
    have hdlen : ((padStart (natToChars n) (d + 1)).drop
        ((padStart (natToChars n) (d + 1)).length - d)).length = d := by
      rw [List.length_drop]
      have := padStart_length_ge n d
      omega
    by_cases hempty : (stripTrailingZeros ((padStart (natToChars n) (d + 1)).drop
        ((padStart (natToChars n) (d + 1)).length - d))).isEmpty = true
    · rw [if_pos hempty]
      unfold fractionPart
      rw [splitDot_no_dot hWdot]
      have hgd : ∀ (x : List Char), ([x] : List (List Char)).getD 1 [] = [] :=
        fun x => rfl
      rw [hgd]
      simp
    · rw [if_neg hempty]
      unfold fractionPart
      have hfracdig : ∀ c ∈ stripTrailingZeros
          ((padStart (natToChars n) (d + 1)).drop
            ((padStart (natToChars n) (d + 1)).length - d)), c.isDigit = true :=
        fun c hc =>
          padStart_digits n d c (List.drop_subset _ _ (mem_stripTrailingZeros hc))
      have hfracdot : '.' ∉ stripTrailingZeros
          ((padStart (natToChars n) (d + 1)).drop
            ((padStart (natToChars n) (d + 1)).length - d)) :=
        fun m => isDigit_ne_dot (hfracdig _ m) rfl
      rw [splitDot_append _ hWdot, splitDot_no_dot hfracdot]
      have hgd : ∀ (x y : List Char),
          ((x :: [y]) : List (List Char)).getD 1 [] = y := fun x y => rfl
      rw [hgd]
      have hle := stripTrailingZeros_length_le
        ((padStart (natToChars n) (d + 1)).drop
          ((padStart (natToChars n) (d + 1)).length - d))
      omega

/-! ## C6: zero on empty/negative input; sign behaviour -/

/-- C6 counterexample: the input `".-5"` slips the dash past the sign check
(the string starts with '.'), the dash survives into the concatenated digit
string as its leading character, and `new BN("-50000")` is negative. So
`uiAmountToBN` can return a negative value. -/
theorem c6_counterexample : uiAmountToBN ".-5".data 6 < 0 := by decide

theorem dropWhile_append_cons {p : Char → Bool} (A : List Char) (c : Char)
    (B : List Char) (hc : p c = false) :
    (A ++ c :: B).dropWhile p = A.dropWhile p ++ c :: B := by
  induction A with
  | nil => simp [List.dropWhile_cons, hc]
  | cons a t ih =>
    rw [List.cons_append, List.dropWhile_cons, List.dropWhile_cons]
    cases hpa : p a
    · simp
    · simp [ih]

/-- C6 amended: empty and whitespace-only inputs parse to zero; an input
whose first character is '-' parses to zero; and the result is non-negative
for every input that contains no '-' character at all (the original claim's
unrestricted non-negativity fails, see the counterexample). The zero result
is what performClmmSwap's non-positive-amount guard subsequently rejects. -/
theorem c6_amended :
    (∀ d, uiAmountToBN [] d = 0)
    ∧ (∀ (s : List Char) d, (∀ c ∈ s, c.isWhitespace = true) →
        uiAmountToBN s d = 0)
    ∧ (∀ (s : List Char) d, s.head? = some '-' → uiAmountToBN s d = 0)
    ∧ (∀ (s : List Char) d, '-' ∉ s → 0 ≤ uiAmountToBN s d) := by
  refine ⟨fun d => rfl, ?_, ?_, ?_⟩
  · intro s d h
    have htr : trim s = [] := by
      unfold trim
      rw [List.dropWhile_eq_nil_iff.mpr (fun x hx => h x hx)]
      rfl
    simp [uiAmountToBN, htr]
  · intro s d h
    obtain ⟨t, rfl⟩ : ∃ t, s = '-' :: t := by
      cases s with
      | nil => simp at h
      | cons a t =>
        rw [List.head?_cons] at h
        exact ⟨t, by rw [Option.some.inj h]⟩
    have htrim : trim ('-' :: t)
        = '-' :: (t.reverse.dropWhile Char.isWhitespace).reverse := by
      unfold trim
      rw [List.dropWhile_cons]
      have hws : Char.isWhitespace '-' = false := by decide
      rw [hws]
      simp only [Bool.false_eq_true, if_false, List.reverse_cons]
      rw [dropWhile_append_cons _ '-' [] (by decide)]
      rw [List.reverse_append]
      rfl
    rw [uiAmountToBN, htrim]
    simp
  · intro s d h
    simp only [uiAmountToBN]
    split
    · exact le_refl 0
    · split
      · exact le_refl 0
      · rw [bnOfChars_orZero (by
          intro c hc
          rcases List.mem_append.mp (mem_dropZeros hc) with h1 | h1
          · rcases mem_orZero h1 with h2 | h2
            · subst h2; decide
            · intro e
              subst e
              exact h (mem_trim
                (mem_headD_splitDot (mem_stripLeadingZeros h2)))
          · rcases mem_padEnd h1 with h2 | h2
            · intro e
              subst e
              exact h (mem_trim
                (mem_getD_splitDot (List.take_subset _ _ h2)))
            · subst h2; decide)]
        exact Int.natCast_nonneg _

/-- Witness for C6 at concrete inputs. -/
theorem c6_amended_witness :
    uiAmountToBN [] 6 = 0
    ∧ uiAmountToBN " ".data 6 = 0
    ∧ uiAmountToBN "-1".data 6 = 0
    ∧ 0 ≤ uiAmountToBN "1.5".data 6 :=
  ⟨c6_amended.1 6,
   c6_amended.2.1 " ".data 6 (by decide),
   c6_amended.2.2.1 "-1".data 6 (by decide),
   c6_amended.2.2.2 "1.5".data 6 (by decide)⟩

/-! ## C10: extra dot segments are ignored -/

theorem trimR_append_dot (f r : List Char) :
    ((f ++ '.' :: r).reverse.dropWhile Char.isWhitespace).reverse
      = f ++ '.' :: (r.reverse.dropWhile Char.isWhitespace).reverse := by
  rw [show (f ++ '.' :: r).reverse = r.reverse ++ '.' :: f.reverse by
        rw [List.reverse_append, List.reverse_cons, List.append_assoc,
            List.singleton_append]]
  rw [dropWhile_append_cons _ '.' _ (by decide)]
  rw [List.reverse_append, List.reverse_cons, List.reverse_reverse]
  simp [List.append_assoc]

theorem trim_append_dot (w X : List Char) :
    trim (w ++ '.' :: X)
      = w.dropWhile Char.isWhitespace
        ++ '.' :: (X.reverse.dropWhile Char.isWhitespace).reverse := by
  unfold trim
  rw [dropWhile_append_cons _ '.' X (by decide)]
  rw [show (w.dropWhile Char.isWhitespace ++ '.' :: X).reverse
        = X.reverse ++ '.' :: (w.dropWhile Char.isWhitespace).reverse by
      rw [List.reverse_append, List.reverse_cons, List.append_assoc,
          List.singleton_append]]
  rw [dropWhile_append_cons _ '.' _ (by decide)]
  rw [List.reverse_append, List.reverse_cons, List.reverse_reverse]
  simp [List.append_assoc]

theorem append_cons_isEmpty (a : List Char) (c : Char) (b : List Char) :
    (a ++ c :: b).isEmpty = false := by
  cases a <;> rfl

theorem head?_append_cons (a : List Char) (c : Char) (b : List Char) :
    (a ++ c :: b).head? = some (a.headD c) := by
  cases a <;> rfl

/-- Anything after a second dot does not influence the parse. -/
theorem uiAmountToBN_extra_segment (w f r : List Char) (d : Nat)
    (hw : '.' ∉ w) (hf : '.' ∉ f)
    (hfws : ∀ c ∈ f, c.isWhitespace = false) :
    uiAmountToBN (w ++ '.' :: (f ++ '.' :: r)) d
      = uiAmountToBN (w ++ '.' :: f) d := by
  have hw1 : '.' ∉ w.dropWhile Char.isWhitespace :=
    fun m => hw ((List.dropWhile_sublist _).mem m)
  have hfr : (f.reverse.dropWhile Char.isWhitespace).reverse = f := by
    rw [dropWhile_eq_self_of_all
          (fun c hc => hfws c (List.mem_reverse.mp hc)),
        List.reverse_reverse]
  have htrimR : trim (w ++ '.' :: f)
      = w.dropWhile Char.isWhitespace ++ '.' :: f := by
    rw [trim_append_dot, hfr]
  have htrimL : trim (w ++ '.' :: (f ++ '.' :: r))
      = w.dropWhile Char.isWhitespace
        ++ '.' :: (f ++ '.' :: (r.reverse.dropWhile Char.isWhitespace).reverse) := by
    rw [trim_append_dot, trimR_append_dot]
  have hsplitL : splitDot (w.dropWhile Char.isWhitespace
        ++ '.' :: (f ++ '.' :: (r.reverse.dropWhile Char.isWhitespace).reverse))
      = w.dropWhile Char.isWhitespace :: f
        :: splitDot (r.reverse.dropWhile Char.isWhitespace).reverse := by
    rw [splitDot_append _ hw1, splitDot_append _ hf]
  have hsplitR : splitDot (w.dropWhile Char.isWhitespace ++ '.' :: f)
      = w.dropWhile Char.isWhitespace :: [f] := by
    rw [splitDot_append _ hw1, splitDot_no_dot hf]
  simp only [uiAmountToBN, htrimL, htrimR, hsplitL, hsplitR,
    append_cons_isEmpty, head?_append_cons, Bool.false_eq_true, if_false,
    List.headD_cons, List.getD_cons_succ, List.getD_cons_zero]

/-- C10: uiAmountToBN silently drops every segment after the second: parsing
`whole.fraction.rest` equals parsing `whole.fraction`; in particular
`"1.2.3"` parses like `"1.2"` for every decimals count. -/
theorem c10_extra_segments :
    (∀ (w f r : List Char) (d : Nat), '.' ∉ w → '.' ∉ f →
        (∀ c ∈ f, c.isWhitespace = false) →
        uiAmountToBN (w ++ '.' :: (f ++ '.' :: r)) d
          = uiAmountToBN (w ++ '.' :: f) d)
    ∧ ∀ d, uiAmountToBN "1.2.3".data d = uiAmountToBN "1.2".data d := by
  constructor
  · exact fun w f r d hw hf hfws => uiAmountToBN_extra_segment w f r d hw hf hfws
  · intro d
    exact uiAmountToBN_extra_segment "1".data "2".data "3".data d
      (by decide) (by decide) (by decide)

/-- Witness for C10 at a concrete input. -/
theorem c10_extra_segments_witness :
    uiAmountToBN "0.4.99".data 2 = uiAmountToBN "0.4".data 2 :=
  c10_extra_segments.1 "0".data "4".data "99".data 2
    (by decide) (by decide) (by decide)


/-! ## C8: signing-capability resolution -/

/-- C8: the resolver prefers the wallet's sign-all capability, falls back to
a sequential (one-at-a-time, in order) per-transaction signer, and fails
WalletCannotSign when the wallet exposes neither. -/
theorem c8_signing :
    (∀ (w : WalletState) (f : List Tx → List Tx),
        w.signAllTransactions = some f →
        resolveSignAllTransactions w = .ok f)
    ∧ (∀ (w : WalletState) (g : Tx → Tx),
        w.signAllTransactions = none → w.signTransaction = some g →
        resolveSignAllTransactions w = .ok (signSequentially g)
          ∧ ∀ txs, signSequentially g txs = txs.map g)
    ∧ (∀ w : WalletState,
        w.signAllTransactions = none → w.signTransaction = none →
        resolveSignAllTransactions w = .error .walletCannotSign) := by
  refine ⟨?_, ?_, ?_⟩
  · intro w f h
    simp [resolveSignAllTransactions, h]
  · intro w g h1 h2
    refine ⟨by simp [resolveSignAllTransactions, h1, h2], ?_⟩
    intro txs
    induction txs with
    | nil => rfl
    | cons a t ih => simp [signSequentially, ih]
  · intro w h1 h2
    simp [resolveSignAllTransactions, h1, h2]


/-- Witness for C8: a wallet with only per-transaction signing resolves to
the sequential fallback. -/
theorem c8_signing_witness :
    resolveSignAllTransactions c8Wallet
      = .ok (signSequentially (fun t => t + 1)) :=
  (c8_signing.2.1 c8Wallet (fun t => t + 1) rfl rfl).1

/-! ## C7: ATA provisioning is idempotent in sequence -/

/-- C7: when the derived associated account already exists the call returns
it at once with no transaction; and after any successful call, a second call
for the same (owner, mint) submits nothing, so two sequential calls issue at
most one creation transaction. -/
theorem c7_ensure_idempotent :
    (∀ (env : RpcEnv) (chain : Chain) (wallet : WalletState) (o m : PK),
        (∃ i, chain (env.deriveAta m o) = some i) →
        ensureAtaExists env chain wallet o m
          = (.ok (env.deriveAta m o), chain,
             [.getAccountInfo (env.deriveAta m o)]))
    ∧ (∀ (env : RpcEnv) (chain : Chain) (wallet : WalletState) (o m : PK)
          (a : PK) (c1 : Chain) (t1 : List NetEffect),
        ensureAtaExists env chain wallet o m = (.ok a, c1, t1) →
        countSend (ensureAtaExists env c1 wallet o m).2.2 = 0
          ∧ countSend t1
              + countSend (ensureAtaExists env c1 wallet o m).2.2 ≤ 1) := by
  constructor
  · intro env chain wallet o m hex
    obtain ⟨i, hi⟩ := hex
    simp [ensureAtaExists, hi]
  · intro env chain wallet o m a c1 t1 h
    simp only [ensureAtaExists] at h
    split at h
    · next i heq =>
      injection h with h1 h2
      injection h2 with h2a h2b
      subst h2a
      subst h2b
      have h3 : ensureAtaExists env chain wallet o m
          = (.ok (env.deriveAta m o), chain,
             [.getAccountInfo (env.deriveAta m o)]) := by
        simp [ensureAtaExists, heq]
      constructor
      · rw [h3]
        rfl
      · rw [h3]
        exact Nat.zero_le 1
    · split at h
      · injection h with h1 h2
        injection h1
      · split at h
        · injection h with h1 h2
          injection h1
        · split at h
          · injection h with h1 h2
            injection h1
          · next heq =>
            injection h with h1 h2
            injection h2 with h2a h2b
            subst h2a
            subst h2b
            have hu : updateChain chain (env.deriveAta m o)
                  ⟨TOKEN_PROGRAM_ID, 165⟩ (env.deriveAta m o)
                = some ⟨TOKEN_PROGRAM_ID, 165⟩ := by
              simp [updateChain]
            have h3 : ensureAtaExists env
                  (updateChain chain (env.deriveAta m o)
                    ⟨TOKEN_PROGRAM_ID, 165⟩) wallet o m
                = (.ok (env.deriveAta m o),
                   updateChain chain (env.deriveAta m o)
                     ⟨TOKEN_PROGRAM_ID, 165⟩,
                   [.getAccountInfo (env.deriveAta m o)]) := by
              simp [ensureAtaExists, hu]
            constructor
            · rw [h3]
              rfl
            · rw [h3]
              exact le_refl 1


/-- Witness for C7 at a concrete environment where the account exists. -/
theorem c7_ensure_idempotent_witness :
    ensureAtaExists c7Env c7Chain c7Wallet 7 10
        = (.ok (c7Env.deriveAta 10 7), c7Chain,
           [.getAccountInfo (c7Env.deriveAta 10 7)])
    ∧ (countSend (ensureAtaExists c7Env c7Chain c7Wallet 7 10).2.2 = 0
       ∧ countSend [NetEffect.getAccountInfo 7010]
           + countSend (ensureAtaExists c7Env c7Chain c7Wallet 7 10).2.2
           ≤ 1) :=
  ⟨c7_ensure_idempotent.1 c7Env c7Chain c7Wallet 7 10
     ⟨⟨TOKEN_PROGRAM_ID, 165⟩, rfl⟩,
   c7_ensure_idempotent.2 c7Env c7Chain c7Wallet 7 10 7010 c7Chain
     [NetEffect.getAccountInfo 7010] rfl⟩

/-! ## C3: pool resolution checks -/


/-- C3 (amended): with a parseable address, resolution fails PoolNotFound
exactly when no account exists; fails WrongProgramOwner exactly when the
account exists but its owner is neither of the two allow-listed CLMM program
identities (mainnet and devnet — accepted irrespective of the network
variant); fails MalformedAccount exactly when the owner passes but the data
is smaller than the CLMM struct span; and otherwise returns the validated
address. -/
theorem c3_pool_resolution (env : RpcEnv) (chain : Chain) (s : List Char)
    (pk : PK) (hp : env.parsePk s = some pk) :
    ((assertClmmPoolAccount env chain s).1 = .error .poolNotFound
        ↔ chain pk = none)
    ∧ ((assertClmmPoolAccount env chain s).1 = .error .wrongProgramOwner
        ↔ ∃ info, chain pk = some info
            ∧ ¬(info.owner = CLMM_PROGRAM_ID
                ∨ info.owner = DEVNET_CLMM_PROGRAM_ID))
    ∧ ((assertClmmPoolAccount env chain s).1 = .error .malformedAccount
        ↔ ∃ info, chain pk = some info
            ∧ (info.owner = CLMM_PROGRAM_ID
               ∨ info.owner = DEVNET_CLMM_PROGRAM_ID)
            ∧ info.dataLength < CLMM_POOL_ACCOUNT_SIZE)
    ∧ ((assertClmmPoolAccount env chain s).1 = .ok pk
        ↔ ∃ info, chain pk = some info
            ∧ (info.owner = CLMM_PROGRAM_ID
               ∨ info.owner = DEVNET_CLMM_PROGRAM_ID)
            ∧ ¬ info.dataLength < CLMM_POOL_ACCOUNT_SIZE) := by
  unfold assertClmmPoolAccount
  simp only [hp]
  rcases hc : chain pk with _ | info
  · simp [hc]
  · simp only [hc]
    by_cases ho : info.owner = CLMM_PROGRAM_ID
        ∨ info.owner = DEVNET_CLMM_PROGRAM_ID
    · rw [if_pos ho]
      by_cases hl : info.dataLength < CLMM_POOL_ACCOUNT_SIZE
      · rw [if_pos hl]
        simp [ho, hl]
        exact fun h => ho.resolve_left h
      · rw [if_neg hl]
        simp [ho, hl]
        exact ⟨fun h => ho.resolve_left h, by omega⟩
    · rw [if_neg ho]
      simp [ho]
      exact ⟨fun h => ho (Or.inl h), fun h => ho (Or.inr h)⟩

/-- Witness for C3 at a concrete environment (pool present, devnet owner,
full span): only the success case fires. -/
theorem c3_pool_resolution_witness :
    ((assertClmmPoolAccount c3Env c3Chain "pool".data).1
          = .error .poolNotFound ↔ c3Chain 5 = none)
    ∧ ((assertClmmPoolAccount c3Env c3Chain "pool".data).1
          = .error .wrongProgramOwner
        ↔ ∃ info, c3Chain 5 = some info
            ∧ ¬(info.owner = CLMM_PROGRAM_ID
                ∨ info.owner = DEVNET_CLMM_PROGRAM_ID))
    ∧ ((assertClmmPoolAccount c3Env c3Chain "pool".data).1
          = .error .malformedAccount
        ↔ ∃ info, c3Chain 5 = some info
            ∧ (info.owner = CLMM_PROGRAM_ID
               ∨ info.owner = DEVNET_CLMM_PROGRAM_ID)
            ∧ info.dataLength < CLMM_POOL_ACCOUNT_SIZE)
    ∧ ((assertClmmPoolAccount c3Env c3Chain "pool".data).1 = .ok 5
        ↔ ∃ info, c3Chain 5 = some info
            ∧ (info.owner = CLMM_PROGRAM_ID
               ∨ info.owner = DEVNET_CLMM_PROGRAM_ID)
            ∧ ¬ info.dataLength < CLMM_POOL_ACCOUNT_SIZE) :=
  c3_pool_resolution c3Env c3Chain "pool".data 5 rfl


/-- C3 counterexample: a pool account owned by the devnet CLMM program id
passes resolution even relative to the mainnet variant, whose single
network-appropriate identity differs — so WrongProgramOwner does not fire
"exactly when the owner differs from the identity appropriate to the current
network variant"; the code accepts either identity unconditionally. -/
theorem c3_counterexample :
    (assertClmmPoolAccount c3Env c3Chain "pool".data).1 = .ok 5
    ∧ c3Chain 5 = some ⟨DEVNET_CLMM_PROGRAM_ID, 1544⟩
    ∧ DEVNET_CLMM_PROGRAM_ID ≠ networkAppropriateId SolanaCluster.mainnet :=
  ⟨rfl, rfl, by decide⟩

/-! ## C2: where validation sits relative to network calls -/

theorem assertClmmPoolAccount_error_cases {env : RpcEnv} {chain : Chain}
    {poolId : List Char} {e : SwapError} {t : List NetEffect}
    (h : assertClmmPoolAccount env chain poolId = (.error e, t)) :
    e = .invalidAddress ∨ e = .poolNotFound ∨ e = .wrongProgramOwner
      ∨ e = .malformedAccount := by
  unfold assertClmmPoolAccount at h
  split at h
  · injection h with h1 h2
    injection h1 with h3
    subst h3
    decide
  · split at h
    · injection h with h1 h2
      injection h1 with h3
      subst h3
      decide
    · split at h
      · split at h
        · injection h with h1 h2
          injection h1 with h3
          subst h3
          decide
        · injection h with h1 h2
          injection h1
      · injection h with h1 h2
        injection h1 with h3
        subst h3
        decide

theorem assertClmmPoolAccount_ok_trace {env : RpcEnv} {chain : Chain}
    {poolId : List Char} {pk : PK} {t : List NetEffect}
    (h : assertClmmPoolAccount env chain poolId = (.ok pk, t)) :
    t = [NetEffect.getAccountInfo pk] := by
  unfold assertClmmPoolAccount at h
  split at h
  · injection h with h1 h2
    injection h1
  · split at h
    · injection h with h1 h2
      injection h1
    · split at h
      · split at h
        · injection h with h1 h2
          injection h1
        · injection h with h1 h2
          injection h1 with h3
          subst h3
          exact h2.symm
      · injection h with h1 h2
        injection h1

theorem ensureAtaExists_error_cases {env : RpcEnv} {chain : Chain}
    {wallet : WalletState} {o m : PK} {e : SwapError} {c : Chain}
    {t : List NetEffect}
    (h : ensureAtaExists env chain wallet o m = (.error e, c, t)) :
    e = .ataNoSendTransaction ∨ e = .accountCreationFailed := by
  simp only [ensureAtaExists] at h
  split at h
  · injection h with h1 h2
    injection h1
  · split at h
    · injection h with h1 h2
      injection h1 with h3
      subst h3
      decide
    · split at h
      · injection h with h1 h2
        injection h1 with h3
        subst h3
        decide
      · split at h
        · injection h with h1 h2
          injection h1 with h3
          subst h3
          decide
        · injection h with h1 h2
          injection h1

theorem resolveSignAllTransactions_error_case {w : WalletState}
    {e : SwapError} (h : resolveSignAllTransactions w = .error e) :
    e = .walletCannotSign := by
  unfold resolveSignAllTransactions at h
  split at h
  · injection h
  · split at h
    · injection h
    · injection h with h1
      exact h1.symm

/-- Every branch of the tail only ever appends to the trace issued so far. -/
theorem performClmmSwapTail_trace (env : RpcEnv) (p : SwapParams)
    (i o : PK) (snap : PoolRpcSnapshot) (t : List NetEffect) :
    ∃ t', (performClmmSwapTail env p i o snap t).2 = t ++ t' := by
  simp only [performClmmSwapTail]
  split
  · exact ⟨[], (List.append_nil t).symm⟩
  · split
    · exact ⟨[], (List.append_nil t).symm⟩
    · split
      · exact ⟨[], (List.append_nil t).symm⟩
      · split
        · exact ⟨[], (List.append_nil t).symm⟩
        · split
          · exact ⟨_, rfl⟩
          · split
            · exact ⟨_, rfl⟩
            · split
              · exact ⟨_, rfl⟩
              · exact ⟨_, rfl⟩

/-- C2 (amended): whenever performClmmSwap fails with TokenNotInPool or
NonPositiveAmount, the network has already been hit: the trace contains the
pool-account fetch, the wallet token account fetch and the pool-info RPC
fetch (and ATA provisioning — possibly submitting a creation transaction —
has already run). These two validation errors are computed from RPC-fetched
pool data, not locally before network calls. -/
theorem c2_network_precedes (env : RpcEnv) (chain : Chain)
    (wallet : WalletState) (p : SwapParams)
    (r : Except SwapError ClmmSwapOk) (t : List NetEffect)
    (hrun : performClmmSwap env chain wallet p = (r, t))
    (herr : r = .error .tokenNotInPool ∨ r = .error .nonPositiveAmount) :
    (∃ pk, NetEffect.getPoolInfoFromRpc pk ∈ t)
    ∧ NetEffect.fetchWalletTokenAccounts ∈ t
    ∧ ∃ a, NetEffect.getAccountInfo a ∈ t := by
  have herrne : ∀ e', r = .error e' →
      e' = SwapError.tokenNotInPool ∨ e' = SwapError.nonPositiveAmount := by
    intro e' he
    subst he
    rcases herr with h | h
    · exact Or.inl (Except.error.inj h)
    · exact Or.inr (Except.error.inj h)
  unfold performClmmSwap at hrun
  split at hrun
  · exfalso
    injection hrun with h1 h2
    rcases herrne _ h1.symm with h | h <;> exact absurd h (by decide)
  · split at hrun
    · exfalso
      injection hrun with h1 h2
      rcases herrne _ h1.symm with h | h <;> exact absurd h (by decide)
    · split at hrun
      · exfalso
        injection hrun with h1 h2
        rcases herrne _ h1.symm with h | h <;> exact absurd h (by decide)
      · split at hrun
        · exfalso
          injection hrun with h1 h2
          rcases herrne _ h1.symm with h | h <;> exact absurd h (by decide)
        · split at hrun
          · next e t0 heq =>
            exfalso
            injection hrun with h1 h2
            rcases assertClmmPoolAccount_error_cases heq with h | h | h | h <;>
              rcases herrne _ h1.symm with h' | h' <;>
                subst h <;> exact absurd h' (by decide)
          · next poolPk t0 heq =>
            split at hrun
            · next e heq2 =>
              exfalso
              injection hrun with h1 h2
              have he := resolveSignAllTransactions_error_case heq2
              rcases herrne _ h1.symm with h' | h' <;>
                subst he <;> exact absurd h' (by decide)
            · split at hrun
              · exfalso
                injection hrun with h1 h2
                rcases herrne _ h1.symm with h | h <;> exact absurd h (by decide)
              · split at hrun
                · next e c ta heq3 =>
                  exfalso
                  injection hrun with h1 h2
                  rcases ensureAtaExists_error_cases heq3 with h | h <;>
                    rcases herrne _ h1.symm with h' | h' <;>
                      subst h <;> exact absurd h' (by decide)
                · next chain1 ta heq3 =>
                  split at hrun
                  · next e c tb heq4 =>
                    exfalso
                    injection hrun with h1 h2
                    rcases ensureAtaExists_error_cases heq4 with h | h <;>
                      rcases herrne _ h1.symm with h' | h' <;>
                        subst h <;> exact absurd h' (by decide)
                  · next chain2 tb heq4 =>
                    split at hrun
                    · exfalso
                      injection hrun with h1 h2
                      rcases herrne _ h1.symm with h | h <;>
                        exact absurd h (by decide)
                    · split at hrun
                      · exfalso
                        injection hrun with h1 h2
                        rcases herrne _ h1.symm with h | h <;>
                          exact absurd h (by decide)
                      · next snap heq5 =>
                        obtain ⟨t', ht'⟩ := performClmmSwapTail_trace env p
                          _ _ snap
                          (t0 ++ [NetEffect.raydiumLoad] ++ ta ++ tb
                            ++ [NetEffect.fetchWalletTokenAccounts,
                                NetEffect.getPoolInfoFromRpc poolPk])
                        have htt : t = (t0 ++ [NetEffect.raydiumLoad] ++ ta
                            ++ tb ++ [NetEffect.fetchWalletTokenAccounts,
                                NetEffect.getPoolInfoFromRpc poolPk]) ++ t' := by
                          rw [← ht', hrun]
                        have ht0 := assertClmmPoolAccount_ok_trace heq
                        refine ⟨⟨poolPk, ?_⟩, ?_, ⟨poolPk, ?_⟩⟩ <;>
                          rw [htt] <;> rw [ht0] <;> simp


/-- C2 counterexample: a run in which performClmmSwap fails with
TokenNotInPool (the input mint is in neither pool mint slot), yet the trace
of already-issued network calls is non-empty — the pool-account fetch, the
SDK load, both ATA existence queries, the wallet token account fetch and the
pool-info RPC fetch all precede the check. So the claim that this validation
error is detected locally before any network call is false. -/
theorem c2_counterexample :
    performClmmSwap c2Env c2Chain c2Wallet c2Params
      = (.error .tokenNotInPool,
         [.getAccountInfo 5, .raydiumLoad, .getAccountInfo 7010,
          .getAccountInfo 7011, .fetchWalletTokenAccounts,
          .getPoolInfoFromRpc 5])
    ∧ ([.getAccountInfo 5, .raydiumLoad, .getAccountInfo 7010,
        .getAccountInfo 7011, .fetchWalletTokenAccounts,
        .getPoolInfoFromRpc 5] : List NetEffect) ≠ [] :=
  ⟨rfl, by decide⟩

/-- Witness for C2's amended theorem at the concrete run above. -/
theorem c2_network_precedes_witness :
    (∃ pk, NetEffect.getPoolInfoFromRpc pk
        ∈ (performClmmSwap c2Env c2Chain c2Wallet c2Params).2)
    ∧ NetEffect.fetchWalletTokenAccounts
        ∈ (performClmmSwap c2Env c2Chain c2Wallet c2Params).2
    ∧ ∃ a, NetEffect.getAccountInfo a
        ∈ (performClmmSwap c2Env c2Chain c2Wallet c2Params).2 :=
  c2_network_precedes c2Env c2Chain c2Wallet c2Params
    (performClmmSwap c2Env c2Chain c2Wallet c2Params).1
    (performClmmSwap c2Env c2Chain c2Wallet c2Params).2
    rfl (Or.inl rfl)


theorem watchStep_cancelled_mono {s : WatchState} {g : Nat}
    (h : s.cancelled g = true) (e : WatchEvent) :
    (watchStep s e).cancelled g = true := by
  cases e with
  | start g' =>
    simp only [watchStep]
    split
    · rfl
    · exact h
  | complete g' r =>
    simp only [watchStep]
    split
    · exact h
    · cases r <;> exact h

theorem watchStep_cancels_active {s : WatchState} {gA : Nat} (gB : Nat)
    (h : s.active = some gA) :
    (watchStep s (WatchEvent.start gB)).cancelled gA = true := by
  simp [watchStep, h]

theorem foldl_watchStep_cancelled_mono {g : Nat} :
    ∀ (evs : List WatchEvent) (s : WatchState), s.cancelled g = true →
      (evs.foldl watchStep s).cancelled g = true := by
  intro evs
  induction evs with
  | nil => intro s h; exact h
  | cons e rest ih =>
    intro s h
    exact ih _ (watchStep_cancelled_mono h e)

/-- C5: once the watch has an in-flight fetch for generation `gA` and a
fetch for a new generation `gB` starts, `gA`'s completion — success or
failure, after any interleaving of other events — is discarded: processing
it leaves the entire shared state (snapshot, error, loading, flags)
unchanged. -/
theorem c5_last_request_wins (s : WatchState) (gA gB : Nat)
    (evs : List WatchEvent) (r : FetchOutcome)
    (h : s.active = some gA) :
    List.foldl watchStep s
        (WatchEvent.start gB :: (evs ++ [WatchEvent.complete gA r]))
      = List.foldl watchStep s (WatchEvent.start gB :: evs) := by
  rw [List.foldl_cons, List.foldl_cons, List.foldl_append, List.foldl_cons,
      List.foldl_nil]
  have hc : (List.foldl watchStep (watchStep s (WatchEvent.start gB))
      evs).cancelled gA = true :=
    foldl_watchStep_cancelled_mono evs _ (watchStep_cancels_active gB h)
  have hstep : ∀ X : WatchState,
      watchStep X (WatchEvent.complete gA r)
        = if X.cancelled gA = true then X else applyOutcome X r :=
    fun X => rfl
  rw [hstep, if_pos hc]


/-- Witness for C5: generation 0 in flight, generation 1 starts and
completes with a failure message, then generation 0's success arrives late
and is dropped. -/
theorem c5_last_request_wins_witness :
    List.foldl watchStep c5State
        (WatchEvent.start 1
          :: ([WatchEvent.complete 1
                (FetchOutcome.failure "Pool not found on the selected cluster.".data)]
              ++ [WatchEvent.complete 0
                    (FetchOutcome.ok ⟨5, ⟨20, none, 6⟩, ⟨21, none, 6⟩, 0⟩)]))
      = List.foldl watchStep c5State
          (WatchEvent.start 1
            :: [WatchEvent.complete 1
                  (FetchOutcome.failure "Pool not found on the selected cluster.".data)]) :=
  c5_last_request_wins c5State 0 1
    [WatchEvent.complete 1
      (FetchOutcome.failure "Pool not found on the selected cluster.".data)]
    (FetchOutcome.ok ⟨5, ⟨20, none, 6⟩, ⟨21, none, 6⟩, 0⟩) rfl

end RaydiumSwap
